import Mathlib

/-!
Verification of the GSMS client-side live-data synchronization layer.

Part 1 embeds the Point Reconciliation Buffer
(`frontend/src/app/Services/trace.service.ts`, class `TraceService`).
Part 2 embeds the Channel Connection
(`websocket-base.service.ts`, class `WebSocketBaseService`).

JavaScript timestamps are modelled by `JSTime`: `new Date(iso).getTime()`
yields either a finite number of milliseconds or `NaN` (for an unparseable
string); `NaN` compares false under both `<` and `>`.  The embedding is
parametric in `parse : String → JSTime`, which models
`DateUtcService.parseIsoToUtc(ts).getTime()` (a call into the JS `Date`
runtime, second-truncated); all theorems hold for every such function, and
concrete instances use the explicit table `demoParse` below.

Coordinates are modelled as exact rationals; `Number.prototype.toFixed(6)`
applied to a coordinate already rounded to 6 decimals is modelled by the
integer of micro-degrees (`fixed6`), which carries the same information as
the produced digit string.
-/

/-- Result of a JavaScript `Date.getTime()` call: a finite count of
milliseconds since the epoch, or `NaN` (an `Invalid Date`). -/
inductive JSTime where
  | nan : JSTime
  | fin : Int → JSTime
deriving DecidableEq, Repr

/-- JavaScript `<` on `getTime()` results: any comparison with `NaN` is false. -/
def jslt : JSTime → JSTime → Bool
  | .fin a, .fin b => a < b
  | _, _ => false

/-- JavaScript `>` on `getTime()` results. -/
def jsgt (a b : JSTime) : Bool := jslt b a

/-- JavaScript `<=` on `getTime()` results (used only in specifications). -/
def jsle : JSTime → JSTime → Bool
  | .fin a, .fin b => decide (a ≤ b)
  | _, _ => false

/-- Fact: `TracePoint` (frontend model): latitude, longitude, optional ISO string. -/
structure TracePoint where
  Latitude : ℚ
  Longitude : ℚ
  Timestamp : Option String
deriving DecidableEq, Repr

/-- Placeholder used to model the (never taken) out-of-bounds array read. -/
def defaultPoint : TracePoint := ⟨0, 0, none⟩

/-- JS `Math.round(a/b)` for a fraction with positive denominator, which is
`⌊a/b + 1/2⌋ = (2a + b).fdiv (2b)` (half-up), written with an explicit
GCD-free floor division so that it evaluates inside the kernel. -/
def jsRoundFrac (a : ℤ) (b : ℕ) : ℤ := Int.fdiv (2 * a + b) (2 * b)

/-- Lemma: `jsRoundFrac` is the textbook `⌊x + 1/2⌋` (Mathlib's `round`). -/
theorem jsRoundFrac_eq_round (a : ℤ) (b : ℕ) (hb : b ≠ 0) :
    jsRoundFrac a b = round ((a : ℚ) / b) := by
  have hd : (0 : ℤ) ≤ 2 * (b : ℤ) := by positivity
  have hden : ((b : ℚ)) ≠ 0 := Nat.cast_ne_zero.mpr hb
  have h1 : (a : ℚ) / b + 1 / 2 = ((2 * a + (b : ℤ) : ℤ) : ℚ) / ((2 * b : ℕ) : ℚ) := by
    push_cast
    field_simp
    ring
  rw [round_eq, jsRoundFrac, Int.fdiv_eq_ediv _ hd, h1,
    Rat.floor_intCast_div_natCast]
  push_cast
  rfl

/-- JS `Math.round(q * 10^6)`: with `q = n/d`, this is the half-up rounding
of the (unreduced) fraction `(n * 10^6) / d`. -/
def jsRound6 (q : ℚ) : ℤ := jsRoundFrac (q.num * 1000000) q.den

/-- Lemma: `jsRound6` agrees with the textbook `round (q * 10^6)`. -/
theorem jsRound6_eq_round (q : ℚ) : jsRound6 q = round (q * 1000000) := by
  have hden : ((q.den : ℚ)) ≠ 0 := Nat.cast_ne_zero.mpr q.den_nz
  rw [jsRound6, jsRoundFrac_eq_round _ _ q.den_nz]
  congr 1
  push_cast
  rw [div_eq_iff hden]
  have h2 : ((q.num : ℚ)) = q * q.den := (div_eq_iff hden).mp (Rat.num_div_den q)
  rw [h2]
  ring

/-- Source `TraceService.normalizeCoord`: `Math.round(value * 10^6) / 10^6`
(the quotient built directly as a normalized rational). -/
def normalizeCoord (value : ℚ) : ℚ := mkRat (jsRound6 value) 1000000

/-- Lemma: `normalizeCoord` is the textbook `round (value * 10^6) / 10^6`. -/
theorem normalizeCoord_eq (value : ℚ) :
    normalizeCoord value = (round (value * 1000000) : ℚ) / 1000000 := by
  rw [normalizeCoord, jsRound6_eq_round, Rat.mkRat_eq_div]
  norm_num

/-- The coordinate normalization applied at the top of `addToDummy` /
`addToRealtime`: both coordinates normalized, timestamp kept. -/
def normalizePoint (p : TracePoint) : TracePoint :=
  ⟨normalizeCoord p.Latitude, normalizeCoord p.Longitude, p.Timestamp⟩

/-- Model of `value.toFixed(6)` for values already of the form `k/10^6`:
the digit string is determined by (and determines) the integer `k`. -/
def fixed6 (q : ℚ) : ℤ := jsRound6 q

/-- Source `TraceService.hashPoint`: the identity key
`lat.toFixed(6) + "|" + lng.toFixed(6) + "|" + (ts ?? "")`, modelled by its
three components. -/
def hashPoint (p : TracePoint) : ℤ × ℤ × String :=
  (fixed6 p.Latitude, fixed6 p.Longitude, p.Timestamp.getD "")

/-- Source `TraceService.parseTimestamp`: a falsy timestamp (null or the empty
string) yields `0`; otherwise `parseIsoToUtc(ts).getTime()` runs, which
never throws — an unparseable string produces an Invalid Date whose
`getTime()` is `NaN` (so the `catch` branch is dead code). -/
def parseTimestamp (parse : String → JSTime) : Option String → JSTime
  | none => .fin 0
  | some s => if s = "" then .fin 0 else parse s

/-- Parsed sort key of a stored point. -/
def pointKey (parse : String → JSTime) (p : TracePoint) : JSTime :=
  parseTimestamp parse p.Timestamp

/-- The binary-search loop of `TraceService.insertSorted`, with an explicit
structural termination witness: `fuel` bounds `right - left`, which shrinks
on every iteration, so any `fuel ≥ right - left` computes the loop's final
`left`.  `buffer[mid]` is modelled with `getD`; all calls keep
`mid < right ≤ buffer.length`, so the default is never read. -/
def insertPosAux (parse : String → JSTime) (buffer : List TracePoint)
    (ts : JSTime) : Nat → Nat → Nat → Nat
  | 0, left, _ => left
  | fuel + 1, left, right =>
    if left < right then
      let mid := (left + right) / 2
      if jslt (pointKey parse (buffer.getD mid defaultPoint)) ts then
        insertPosAux parse buffer ts fuel (mid + 1) right
      else
        insertPosAux parse buffer ts fuel left mid
    else
      left

/-- The final value of `left` computed by the binary-search loop of
`TraceService.insertSorted`. -/
def insertPos (parse : String → JSTime) (buffer : List TracePoint)
    (ts : JSTime) (left right : Nat) : Nat :=
  insertPosAux parse buffer ts (right - left) left right

/-- Source `TraceService.insertSorted`: binary search for the insertion position,
then `splice(left, 0, point)`. -/
def insertSorted (parse : String → JSTime) (buffer : List TracePoint)
    (point : TracePoint) : List TracePoint :=
  let ts := parseTimestamp parse point.Timestamp
  let left := insertPos parse buffer ts 0 buffer.length
  buffer.take left ++ point :: buffer.drop left

/-- The first-occurrence-wins de-duplication loop of `rebuildFinalBuffer`
(`seen` starts empty; later points with an already-seen hash are dropped). -/
def dedupFirst : List TracePoint → List (ℤ × ℤ × String) → List TracePoint
  | [], _ => []
  | p :: rest, seen =>
    if hashPoint p ∈ seen then dedupFirst rest seen
    else p :: dedupFirst rest (hashPoint p :: seen)

/-- The mutable state of `TraceService`: historical buffer (`dummyBuffer`,
H), live buffer (`realtimeBuffer`, L), merged buffer (`finalBuffer`, M), and
the two identity-key sets. -/
structure TraceState where
  dummyBuffer : List TracePoint
  dummyHashSet : List (ℤ × ℤ × String)
  realtimeBuffer : List TracePoint
  realtimeHashSet : List (ℤ × ℤ × String)
  finalBuffer : List TracePoint
deriving DecidableEq, Repr

/-- The state right after construction: every buffer and index empty. -/
def initialTrace : TraceState := ⟨[], [], [], [], []⟩

/-- Source `TraceService.rebuildFinalBuffer` as a function of the two source
buffers: cutover filter on the live buffer when H is non-empty
(`t_cut = parse(A[A.length-1].Timestamp)`), then first-occurrence dedup of
`A ++ B`. -/
def rebuildFinalBuffer (parse : String → JSTime)
    (A Ball : List TracePoint) : List TracePoint :=
  let B :=
    if A.length = 0 then Ball
    else
      let oldestDummyTs := pointKey parse (A.getLast?.getD defaultPoint)
      Ball.filter (fun p => jsgt (pointKey parse p) oldestDummyTs)
  dedupFirst (A ++ B) []

/-- Source `TraceService.addToDummy`: normalize, hash, no-op when the key is already
indexed, otherwise sorted-insert into H and synchronously rebuild M. -/
def addToDummy (parse : String → JSTime) (s : TraceState)
    (point : TracePoint) : TraceState :=
  let p := normalizePoint point
  let h := hashPoint p
  if h ∈ s.dummyHashSet then s
  else
    let buffer := insertSorted parse s.dummyBuffer p
    { s with
      dummyBuffer := buffer
      dummyHashSet := h :: s.dummyHashSet
      finalBuffer := rebuildFinalBuffer parse buffer s.realtimeBuffer }

/-- Source `TraceService.addToRealtime`: normalize, hash, no-op when the key is
already indexed, otherwise sorted-insert into L and synchronously rebuild M. -/
def addToRealtime (parse : String → JSTime) (s : TraceState)
    (point : TracePoint) : TraceState :=
  let p := normalizePoint point
  let h := hashPoint p
  if h ∈ s.realtimeHashSet then s
  else
    let buffer := insertSorted parse s.realtimeBuffer p
    { s with
      realtimeBuffer := buffer
      realtimeHashSet := h :: s.realtimeHashSet
      finalBuffer := rebuildFinalBuffer parse s.dummyBuffer buffer }

/-- The `get_history` subscription handler (`historySub`): clear H and its
index, then `addToDummy` each batch point in order.  Note that the clearing
itself does not rebuild M. -/
def replaceHistorical (parse : String → JSTime) (s : TraceState)
    (pts : List TracePoint) : TraceState :=
  let s0 := { s with dummyBuffer := [], dummyHashSet := [] }
  pts.foldl (addToDummy parse) s0

/-- Source `TraceService.clearTrace`: clear every buffer and both indexes. -/
def clearTrace (s : TraceState) : TraceState :=
  let _ := s
  initialTrace

/-- The three external mutations of the reconciliation buffer. -/
inductive TraceOp where
  | replaceHist : List TracePoint → TraceOp
  | appendLive : TracePoint → TraceOp
  | reset : TraceOp
deriving Repr

/-- One buffer mutation. -/
def traceStep (parse : String → JSTime) (s : TraceState) : TraceOp → TraceState
  | .replaceHist pts => replaceHistorical parse s pts
  | .appendLive p => addToRealtime parse s p
  | .reset => clearTrace s

/-- A whole sequence of buffer mutations. -/
def runTrace (parse : String → JSTime) (s : TraceState)
    (ops : List TraceOp) : TraceState :=
  ops.foldl (traceStep parse) s

/-- Modelled from the spec: the merged-buffer formula of §3 —
`M = dedup(H ++ {p ∈ L : timestamp(p) > timestamp(last(H))})` when H is
non-empty, else `M = dedup(L)`, first occurrence wins. -/
def specMerge (parse : String → JSTime) (H L : List TracePoint) :
    List TracePoint :=
  match H.getLast? with
  | none => dedupFirst L []
  | some lastH =>
    dedupFirst (H ++ L.filter
      (fun p => jsgt (pointKey parse p) (pointKey parse lastH))) []

/-- Concrete timestamp-parse table used for all concrete runs: numeric-string
timestamps denote their value in milliseconds, anything else is unparseable. -/
def demoParse (s : String) : JSTime :=
  if s = "5" then .fin 5
  else if s = "10" then .fin 10
  else if s = "15" then .fin 15
  else if s = "20" then .fin 20
  else if s = "25" then .fin 25
  else if s = "-5" then .fin (-5)
  else .nan

/-- Boolean: the point's timestamp parses to a finite value. -/
def finiteKeyB (parse : String → JSTime) (p : TracePoint) : Bool :=
  match parseTimestamp parse p.Timestamp with
  | .fin _ => true
  | .nan => false

/-- Boolean: a `replaceHist` operation carries at least one point. -/
def batchOkB : TraceOp → Bool
  | .replaceHist pts => !pts.isEmpty
  | _ => true

/-- Boolean: every point the operation carries has a finite parsed key. -/
def opFiniteB (parse : String → JSTime) : TraceOp → Bool
  | .replaceHist pts => pts.all (finiteKeyB parse)
  | .appendLive p => finiteKeyB parse p
  | .reset => true

/-- Sortedness of a buffer, ascending by parsed timestamp (finite keys). -/
def sortedByKey (parse : String → JSTime) (l : List TracePoint) : Prop :=
  List.Pairwise (fun a b => jsle (pointKey parse a) (pointKey parse b) = true) l

/-- Modelled from the spec: the sort key of §3, where a missing or
unparseable timestamp "sorts as the minimum value" (`none` below is the
spec's `-infinity`). -/
def specSortKey (parse : String → JSTime) (p : TracePoint) : Option ℤ :=
  match p.Timestamp with
  | none => none
  | some s =>
    if s = "" then none
    else
      match parse s with
      | .nan => none
      | .fin v => some v

/-- Modelled from the spec: comparison of spec sort keys (`none` minimal). -/
def specKeyLe (parse : String → JSTime) (a b : TracePoint) : Bool :=
  match specSortKey parse a, specSortKey parse b with
  | none, _ => true
  | some _, none => false
  | some x, some y => decide (x ≤ y)

/-!
Part 2: the Channel Connection (`WebSocketBaseService`).

The service wires a `WebSocketSubject` through
`retry({count: maxRetries, delay}) → tap → share → finalize` and
subscribes.  The rxjs `retry` operator re-subscribes the source after each
error while its attempt counter is below `count`, calling the configured
`delay` callback with the 1-based number of the current retry attempt; it
is created fresh (counter zero) on every `connect()` call, and since
`resetOnSuccess` is not set the counter does not reset on successful
emissions.  When the budget is exhausted the error reaches the subscriber
(status `disconnected`) and `finalize` runs, which — unless the closure was
intentional or the outer `attempt` counter has reached `maxRetries` —
emits `disconnected` and synchronously calls `connect(attempt + 1)`.

One step returns the new state together with `Option Nat`: `some d` when
the step itself schedules an automatic transport (re)connection attempt
after `d` milliseconds (`some 0` for the synchronous attempts made by
`connect` itself), `none` when it schedules nothing.
-/

/-- Source `connectionStatus$` values. -/
inductive ConnStatus where
  | connecting
  | connected
  | disconnected
deriving DecidableEq, Repr

/-- Configuration constant `reconnectInterval` (base delay, ms). -/
def reconnectInterval : Nat := 5000

/-- Configuration constant `maxReconnectInterval` (backoff cap, ms). -/
def maxReconnectInterval : Nat := 60000

/-- Configuration constant `maxRetries`. -/
def maxRetries : Nat := 50

/-- The delay computed by the `retry` config's `delay` callback:
`Math.min(reconnectInterval * Math.pow(2, retryCount), maxReconnectInterval)`. -/
def reconnectDelay (retryCount : Nat) : Nat :=
  min (reconnectInterval * 2 ^ retryCount) maxReconnectInterval

/-- State of one `WebSocketBaseService` instance.  `socketOpen` models
`socket$ !== null`, `pipelineActive` models the piped subscription being
live, `retryCount` is the rxjs retry counter of the current pipeline,
`attempt` the parameter of the current `connect(attempt)` call, and
`latest` the cached value of the `latestMessage$` BehaviorSubject
(`none` is the initial `null`). -/
structure WSState (Msg : Type) where
  socketOpen : Bool
  pipelineActive : Bool
  status : ConnStatus
  isClosed : Bool
  attempt : Nat
  retryCount : Nat
  latest : Option Msg
deriving DecidableEq, Repr

/-- The freshly constructed service: `socket$ = null`, no subscription,
`connectionStatus$` starts at `'connecting'`, `latestMessage$` at `null`. -/
def WSInit {Msg : Type} : WSState Msg :=
  ⟨false, false, .connecting, false, 0, 0, none⟩

/-- Source `connect(attempt)`: clear `isClosed`, emit `connecting`, create the
socket and subscribe the pipeline (fresh retry counter). -/
def wsConnect {Msg : Type} (s : WSState Msg) (attempt : Nat) : WSState Msg :=
  { s with
    isClosed := false
    status := .connecting
    socketOpen := true
    pipelineActive := true
    attempt := attempt
    retryCount := 0 }

/-- The `finalize` callback: drop the socket; unless closed intentionally,
either reconnect with the outer counter bumped (emitting `disconnected`
then, inside `connect`, `connecting`) or settle permanently. -/
def wsFinalize {Msg : Type} (s : WSState Msg) : WSState Msg × Option Nat :=
  let s := { s with socketOpen := false, pipelineActive := false }
  if !s.isClosed && s.attempt < maxRetries then
    (wsConnect { s with status := .disconnected } (s.attempt + 1), some 0)
  else if s.isClosed then
    (s, none)
  else
    ({ s with status := .disconnected }, none)

/-- A transport error reaching the pipeline: while the rxjs retry budget
remains, bump the counter and schedule a re-subscription after the backoff
delay (the callback sees the 1-based attempt number); otherwise the error
reaches the subscriber (`disconnected`) and `finalize` runs. -/
def wsTransportError {Msg : Type} (s : WSState Msg) : WSState Msg × Option Nat :=
  if !s.pipelineActive then (s, none)
  else if s.retryCount < maxRetries then
    let rc := s.retryCount + 1
    ({ s with retryCount := rc }, some (reconnectDelay rc))
  else
    wsFinalize { s with status := .disconnected }

/-- A graceful completion of the transport: `retry` passes completions
through, the subscriber has no complete handler, and `finalize` runs. -/
def wsTransportComplete {Msg : Type} (s : WSState Msg) : WSState Msg × Option Nat :=
  if !s.pipelineActive then (s, none)
  else wsFinalize s

/-- An inbound message: `tap` emits `connected`, the subscriber broadcasts
on `messages$` and caches the value in `latestMessage$`. -/
def wsMessage {Msg : Type} (s : WSState Msg) (m : Msg) : WSState Msg × Option Nat :=
  if !s.pipelineActive then (s, none)
  else ({ s with status := .connected, latest := some m }, none)

/-- Source `close()`: mark intentional, emit `disconnected`, complete and drop the
socket (the triggered `finalize` takes its intentional-closure branch). -/
def wsClose {Msg : Type} (s : WSState Msg) : WSState Msg :=
  { s with
    isClosed := true
    status := .disconnected
    socketOpen := false
    pipelineActive := false }

/-- Source `sendMessage(msg)`: `true` when `socket$` exists (the message is handed
to it), otherwise log a warning and return `false`; the function is total,
so it never throws. -/
def wsSendMessage {Msg : Type} (s : WSState Msg) : Bool := s.socketOpen

/-- API calls and transport events driving one channel (`start` models the
explicit `initialize()` / `open()` entry point). -/
inductive WSOp (Msg : Type) where
  | start : WSOp Msg
  | close : WSOp Msg
  | transportError : WSOp Msg
  | transportComplete : WSOp Msg
  | message : Msg → WSOp Msg
deriving Repr

/-- One step of the channel: the resulting state, plus the delay of the
automatic transport attempt the step schedules, if any. -/
def wsStep {Msg : Type} (s : WSState Msg) : WSOp Msg → WSState Msg × Option Nat
  | .start => (wsConnect s 0, some 0)
  | .close => (wsClose s, none)
  | .transportError => wsTransportError s
  | .transportComplete => wsTransportComplete s
  | .message m => wsMessage s m

/-- Run a sequence of channel operations. -/
def wsRun {Msg : Type} (s : WSState Msg) (ops : List (WSOp Msg)) : WSState Msg :=
  ops.foldl (fun s op => (wsStep s op).1) s

/-- The value a late subscriber of `onMessage()` / `onGPS()` /
`onResponse()` receives immediately on subscription: the current cached
value of the `latestMessage$` BehaviorSubject. -/
def lateSubscribeEmit {Msg : Type} (s : WSState Msg) : Option Msg := s.latest

/-- Boolean: the operation is the explicit `initialize()` entry point. -/
def isStartOp {Msg : Type} : WSOp Msg → Bool
  | .start => true
  | _ => false

/-- Boolean: the operation is a message arrival. -/
def isMessageOp {Msg : Type} : WSOp Msg → Bool
  | .message _ => true
  | _ => false

/-- Boolean: the operation is a passive transport event (error, graceful
close, or message), not an API call. -/
def isTransportEvent {Msg : Type} : WSOp Msg → Bool
  | .transportError => true
  | .transportComplete => true
  | .message _ => true
  | _ => false

/-!
Helper lemmas about the channel state machine.
-/

/-- After `close()`, every non-`initialize` operation leaves the state
untouched and schedules no automatic attempt. -/
theorem wsStep_after_close {Msg : Type} (s : WSState Msg) (op : WSOp Msg)
    (h : isStartOp op = false) :
    wsStep (wsClose s) op = (wsClose s, none) := by
  cases op with
  | start => simp [isStartOp] at h
  | close => rfl
  | transportError => simp [wsStep, wsTransportError, wsClose]
  | transportComplete => simp [wsStep, wsTransportComplete, wsClose]
  | message m => simp [wsStep, wsMessage, wsClose]

/-- While no pipeline is subscribed, transport events are no-ops and
schedule nothing. -/
theorem wsStep_inactive {Msg : Type} (s : WSState Msg) (op : WSOp Msg)
    (hact : s.pipelineActive = false) (ht : isTransportEvent op = true) :
    wsStep s op = (s, none) := by
  cases op with
  | start => simp [isTransportEvent] at ht
  | close => simp [isTransportEvent] at ht
  | transportError => simp [wsStep, wsTransportError, hact]
  | transportComplete => simp [wsStep, wsTransportComplete, hact]
  | message m => simp [wsStep, wsMessage, hact]

/-- Transport-event runs from an inactive state are frozen. -/
theorem wsRun_inactive {Msg : Type} (s : WSState Msg) (ops : List (WSOp Msg))
    (hact : s.pipelineActive = false) (ht : ops.all isTransportEvent = true) :
    wsRun s ops = s := by
  induction ops with
  | nil => rfl
  | cons op rest ih =>
    simp only [List.all_cons, Bool.and_eq_true] at ht
    show wsRun (wsStep s op).1 rest = s
    rw [wsStep_inactive s op hact ht.1]
    exact ih ht.2

/-- While the rxjs retry budget lasts, `k` consecutive transport errors
only advance the retry counter. -/
theorem wsRun_err_retryPhase {Msg : Type} (s : WSState Msg) (k : Nat)
    (hact : s.pipelineActive = true) (hk : s.retryCount + k ≤ maxRetries) :
    wsRun s (List.replicate k .transportError)
      = { s with retryCount := s.retryCount + k } := by
  induction k generalizing s with
  | zero => rfl
  | succ k ih =>
    rw [List.replicate_succ]
    show wsRun (wsStep s .transportError).1 (List.replicate k .transportError)
      = { s with retryCount := s.retryCount + (k + 1) }
    have hlt : s.retryCount < maxRetries := by omega
    have hstep : (wsStep s .transportError).1 = { s with retryCount := s.retryCount + 1 } := by
      simp [wsStep, wsTransportError, hact, hlt]
    rw [hstep]
    rw [ih { s with retryCount := s.retryCount + 1 } hact (by simp; omega)]
    simp
    omega

/-- One full pipeline: from a fresh `connect(a)` with `a < maxRetries`,
`maxRetries + 1` consecutive transport errors exhaust the inner retry
budget and re-enter `connect(a + 1)`. -/
theorem wsRun_err_pipeline {Msg : Type} (s : WSState Msg) (a : Nat)
    (ha : a < maxRetries) :
    wsRun (wsConnect s a) (List.replicate (maxRetries + 1) .transportError)
      = wsConnect s (a + 1) := by
  rw [List.replicate_succ']
  rw [wsRun, List.foldl_append]
  show wsRun (wsRun (wsConnect s a) (List.replicate maxRetries .transportError))
      [.transportError] = wsConnect s (a + 1)
  rw [wsRun_err_retryPhase (wsConnect s a) maxRetries (by rfl) (by simp [wsConnect])]
  show (wsStep _ .transportError).1 = wsConnect s (a + 1)
  simp [wsStep, wsTransportError, wsConnect, wsFinalize, ha]

/-- The outer reconnect loop: `j` whole pipelines advance the outer attempt
counter by `j`. -/
theorem wsRun_err_outer {Msg : Type} (s : WSState Msg) (a j : Nat)
    (hj : a + j ≤ maxRetries) :
    wsRun (wsConnect s a) (List.replicate (j * (maxRetries + 1)) .transportError)
      = wsConnect s (a + j) := by
  induction j generalizing a with
  | zero => rfl
  | succ j ih =>
    have : (j + 1) * (maxRetries + 1) = (maxRetries + 1) + j * (maxRetries + 1) := by ring
    rw [this, List.replicate_add, wsRun, List.foldl_append]
    show wsRun (wsRun (wsConnect s a) (List.replicate (maxRetries + 1) .transportError))
        (List.replicate (j * (maxRetries + 1)) .transportError) = wsConnect s (a + (j + 1))
    rw [wsRun_err_pipeline s a (by omega)]
    rw [ih (a + 1) (by omega)]
    congr 1
    omega

/-- The exact terminal state of an uninterrupted failure run: after
`(maxRetries + 1)²` consecutive transport errors from `connect(0)`, both
budgets are exhausted and the machine is permanently inactive. -/
theorem wsRun_err_total {Msg : Type} (s : WSState Msg) :
    wsRun (wsConnect s 0)
        (List.replicate ((maxRetries + 1) * (maxRetries + 1)) .transportError)
      = ⟨false, false, .disconnected, false, maxRetries, maxRetries, s.latest⟩ := by
  have hsplit : (maxRetries + 1) * (maxRetries + 1)
      = maxRetries * (maxRetries + 1) + (maxRetries + 1 - 1) + 1 := by
    simp [maxRetries]
  rw [hsplit]
  rw [List.replicate_add, List.replicate_add, wsRun, List.foldl_append, List.foldl_append]
  show wsRun (wsRun (wsRun (wsConnect s 0)
      (List.replicate (maxRetries * (maxRetries + 1)) .transportError))
      (List.replicate (maxRetries + 1 - 1) .transportError)) (List.replicate 1 .transportError) = _
  rw [wsRun_err_outer s 0 maxRetries (by omega)]
  simp only [Nat.zero_add]
  rw [wsRun_err_retryPhase (wsConnect s maxRetries) (maxRetries + 1 - 1) (by rfl)
    (by simp [wsConnect])]
  show (wsStep _ .transportError).1 = _
  simp [wsStep, wsTransportError, wsConnect, wsFinalize, maxRetries]

/-- Every step keeps `socket$ ≠ null` equivalent to the pipeline being
subscribed (both are set and cleared together). -/
theorem wsStep_socket_sync {Msg : Type} (s : WSState Msg) (op : WSOp Msg)
    (h : s.socketOpen = s.pipelineActive) :
    ((wsStep s op).1).socketOpen = ((wsStep s op).1).pipelineActive := by
  cases op with
  | start => rfl
  | close => rfl
  | transportError =>
    by_cases hact : s.pipelineActive = true
    · by_cases hrc : s.retryCount < maxRetries
      · simp [wsStep, wsTransportError, hact, hrc, h]
      · simp [wsStep, wsTransportError, hact, hrc, wsFinalize, wsConnect]
        by_cases hcl : s.isClosed <;> by_cases hat : s.attempt < maxRetries <;>
          simp [hcl, hat]
    · have hact' : s.pipelineActive = false := by
        cases hp : s.pipelineActive
        · rfl
        · exact absurd hp hact
      simp [wsStep, wsTransportError, hact', h]
  | transportComplete =>
    by_cases hact : s.pipelineActive = true
    · simp [wsStep, wsTransportComplete, hact, wsFinalize, wsConnect]
      by_cases hcl : s.isClosed <;> by_cases hat : s.attempt < maxRetries <;>
        simp [hcl, hat]
    · have hact' : s.pipelineActive = false := by
        cases hp : s.pipelineActive
        · rfl
        · exact absurd hp hact
      simp [wsStep, wsMessage, wsTransportComplete, hact', h]
  | message m =>
    by_cases hact : s.pipelineActive = true
    · simp [wsStep, wsMessage, hact, h]
    · have hact' : s.pipelineActive = false := by
        cases hp : s.pipelineActive
        · rfl
        · exact absurd hp hact
      simp [wsStep, wsMessage, hact', h]

/-- No operation other than a message arrival touches the cached
`latestMessage$` value. -/
theorem wsStep_latest {Msg : Type} (s : WSState Msg) (op : WSOp Msg)
    (h : isMessageOp op = false) :
    ((wsStep s op).1).latest = s.latest := by
  cases op with
  | start => rfl
  | close => rfl
  | transportError =>
    by_cases hact : s.pipelineActive = true
    · by_cases hrc : s.retryCount < maxRetries
      · simp [wsStep, wsTransportError, hact, hrc]
      · simp [wsStep, wsTransportError, hact, hrc, wsFinalize, wsConnect]
        by_cases hcl : s.isClosed <;> by_cases hat : s.attempt < maxRetries <;>
          simp [hcl, hat]
    · have hact' : s.pipelineActive = false := by
        cases hp : s.pipelineActive
        · rfl
        · exact absurd hp hact
      simp [wsStep, wsTransportError, hact']
  | transportComplete =>
    by_cases hact : s.pipelineActive = true
    · simp [wsStep, wsTransportComplete, hact, wsFinalize, wsConnect]
      by_cases hcl : s.isClosed <;> by_cases hat : s.attempt < maxRetries <;>
        simp [hcl, hat]
    · have hact' : s.pipelineActive = false := by
        cases hp : s.pipelineActive
        · rfl
        · exact absurd hp hact
      simp [wsStep, wsTransportComplete, hact']
  | message m => simp [isMessageOp] at h

/-!
Claim theorems for the Channel Connection (C2, C3, C7, C8, C10).
-/

/-- C2 (counterexample): the claimed delay sequence starts at
`base_delay = 5000` ms, but the very first automatic retry after
`initialize()` is scheduled with a 10000 ms delay (the rxjs retry counter
passed to the delay callback is 1-based), so the stated
`min(5000 · 2^attempt, 60000)` with the counter starting at zero is wrong
at the first attempt. -/
theorem c2_backoff_counterexample :
    (wsStep (wsRun (WSInit : WSState Nat) [.start]) .transportError).2 = some 10000 ∧
    (wsStep (wsRun (WSInit : WSState Nat) [.start]) .transportError).2 ≠ some 5000 := by
  decide

/-- C2 (amended): while a pipeline is live and its retry budget remains,
the `k`-th transport error is answered by an automatic retry after
`min(5000 · 2^k, 60000)` ms with `k` counted from 1 (10000, 20000, 40000,
60000, 60000, …); delays are capped by and never exceed 60000 ms. -/
theorem c2_backoff_amended :
    (∀ s : WSState Nat, s.pipelineActive = true → s.retryCount < maxRetries →
      (wsStep s .transportError).2 = some (reconnectDelay (s.retryCount + 1)) ∧
      reconnectDelay (s.retryCount + 1)
        = min (reconnectInterval * 2 ^ (s.retryCount + 1)) maxReconnectInterval) ∧
    (∀ k : Nat, reconnectDelay k ≤ 60000) ∧
    (List.range 6).map (fun k => reconnectDelay (k + 1))
      = [10000, 20000, 40000, 60000, 60000, 60000] := by
  refine ⟨fun s hact hrc => ⟨?_, rfl⟩, fun k => ?_, by decide⟩
  · simp [wsStep, wsTransportError, hact, hrc]
  · exact min_le_right _ _

/-- C2 (witness): instantiation of the amended backoff law at a freshly
connected channel. -/
theorem c2_backoff_witness :
    (wsStep (wsConnect (WSInit : WSState Nat) 0) .transportError).2
      = some (reconnectDelay ((wsConnect (WSInit : WSState Nat) 0).retryCount + 1)) ∧
    reconnectDelay ((wsConnect (WSInit : WSState Nat) 0).retryCount + 1)
      = min (reconnectInterval * 2 ^ ((wsConnect (WSInit : WSState Nat) 0).retryCount + 1))
          maxReconnectInterval :=
  c2_backoff_amended.1 (wsConnect WSInit 0) (by decide) (by decide)

/-- One unfolding step of a channel run. -/
theorem wsRun_cons {Msg : Type} (s : WSState Msg) (op : WSOp Msg)
    (ops : List (WSOp Msg)) : wsRun s (op :: ops) = wsRun (wsStep s op).1 ops := rfl

set_option maxRecDepth 4000 in
/-- C3 (counterexample): after `maxRetries = 50` consecutive failed
transport attempts (with no success and no intentional close) the channel
has not settled: its status is still `connecting` and the 50th failure
schedules yet another automatic attempt after 60000 ms, with the retry
counter at 50. -/
theorem c3_exhaustion_counterexample :
    (wsRun (WSInit : WSState Nat) (.start :: List.replicate 49 .transportError)).status
      = .connecting ∧
    (wsStep (wsRun (WSInit : WSState Nat) (.start :: List.replicate 49 .transportError))
        .transportError)
      = (⟨true, true, .connecting, false, 0, 50, none⟩, some 60000) := by
  decide

/-- C3 (amended): the channel settles permanently only after the inner rxjs
retry budget and the outer `connect(attempt + 1)` loop are both exhausted —
`(maxRetries + 1)² = 2601` consecutive transport failures after
`initialize()`.  From that terminal state every further transport event is
ignored and schedules nothing, and only a new `initialize()` produces a
`connecting` transition again. -/
theorem c3_exhaustion_amended :
    (wsRun (WSInit : WSState Nat) (.start :: List.replicate 2601 .transportError)
      = ⟨false, false, .disconnected, false, 50, 50, none⟩) ∧
    (∀ (s : WSState Nat) (op : WSOp Nat), s.pipelineActive = false →
      isTransportEvent op = true → wsStep s op = (s, none)) ∧
    (∀ ops : List (WSOp Nat), ops.all isTransportEvent = true →
      wsRun (⟨false, false, .disconnected, false, 50, 50, none⟩ : WSState Nat) ops
        = ⟨false, false, .disconnected, false, 50, 50, none⟩) ∧
    (wsStep (⟨false, false, .disconnected, false, 50, 50, none⟩ : WSState Nat) .start).1.status
      = .connecting := by
  refine ⟨?_, fun s op h1 h2 => wsStep_inactive s op h1 h2,
    fun ops h => wsRun_inactive _ ops rfl h, rfl⟩
  rw [wsRun_cons]
  have h1 : (wsStep (WSInit : WSState Nat) .start).1 = wsConnect WSInit 0 := rfl
  have h2 : (2601 : Nat) = (maxRetries + 1) * (maxRetries + 1) := by decide
  rw [h1, h2, wsRun_err_total]
  rfl

/-- C3 (witness): the frozen-terminal-state clause applied to a concrete
post-exhaustion event sequence. -/
theorem c3_exhaustion_witness :
    wsRun (⟨false, false, .disconnected, false, 50, 50, none⟩ : WSState Nat)
        [.transportError, .transportComplete, .message 3]
      = ⟨false, false, .disconnected, false, 50, 50, none⟩ :=
  c3_exhaustion_amended.2.2.1 [.transportError, .transportComplete, .message 3] (by decide)

/-- C7: after `close()` the channel never transitions to `connecting` again
— the state reached by `close()` reports `disconnected`, and every
subsequent operation other than the explicit `initialize()` entry point
leaves the state exactly as `close()` left it and schedules no automatic
reconnection. -/
theorem c7_close_is_permanent {Msg : Type} (s : WSState Msg)
    (ops : List (WSOp Msg)) (h : ops.all (fun op => !isStartOp op) = true) :
    wsRun (wsClose s) ops = wsClose s ∧
    (wsClose s).status = .disconnected ∧
    (∀ op : WSOp Msg, isStartOp op = false → wsStep (wsClose s) op = (wsClose s, none)) := by
  refine ⟨?_, rfl, fun op hop => wsStep_after_close s op hop⟩
  induction ops with
  | nil => rfl
  | cons op rest ih =>
    simp only [List.all_cons, Bool.and_eq_true, Bool.not_eq_true'] at h
    show wsRun (wsStep (wsClose s) op).1 rest = wsClose s
    rw [wsStep_after_close s op h.1]
    exact ih (by simpa using h.2)

/-- C7 (witness): a closed channel stays frozen across a concrete sequence
of transport closures, errors, messages and repeated `close()` calls. -/
theorem c7_close_witness :
    wsRun (wsClose (WSInit : WSState Nat))
        [.transportError, .transportComplete, .message 7, .close]
      = wsClose (WSInit : WSState Nat) ∧
    (wsClose (WSInit : WSState Nat)).status = .disconnected ∧
    (∀ op : WSOp Nat, isStartOp op = false →
      wsStep (wsClose (WSInit : WSState Nat)) op = (wsClose (WSInit : WSState Nat), none)) :=
  c7_close_is_permanent WSInit
    [.transportError, .transportComplete, .message 7, .close] (by decide)

/-- C8 (counterexample): `sendMessage` is not restricted to the `connected`
state — right after `initialize()`, while the status is still
`connecting`, it hands the message to the transport and returns `true`. -/
theorem c8_send_counterexample :
    (wsRun (WSInit : WSState Nat) [.start]).status = .connecting ∧
    wsSendMessage (wsRun (WSInit : WSState Nat) [.start]) = true := by
  decide

/-- C8 (amended): in every reachable state, `sendMessage` returns `true`
exactly when a live transport object exists (equivalently, while the
pipeline opened by the last `connect()` has not been torn down), regardless
of the reported connection status; it returns `false` — and never throws,
being a total function — otherwise. -/
theorem c8_send_amended {Msg : Type} (ops : List (WSOp Msg)) :
    wsSendMessage (wsRun WSInit ops) = (wsRun WSInit ops).pipelineActive := by
  have gen : ∀ (s : WSState Msg) (ops' : List (WSOp Msg)),
      s.socketOpen = s.pipelineActive →
      (wsRun s ops').socketOpen = (wsRun s ops').pipelineActive := by
    intro s ops'
    induction ops' generalizing s with
    | nil => intro h; exact h
    | cons op rest ih =>
      intro h
      exact ih (wsStep s op).1 (wsStep_socket_sync s op h)
  exact gen WSInit ops rfl

/-- C10: before any inbound message has been received on a channel, the
cached last value replayed to any subscriber of `onMessage()` (and of the
derived `onGPS()` / `onResponse()` / log accessors, which all return
`latestMessage$.asObservable()`) is the `null` sentinel, not a server
message. -/
theorem c10_initial_null {Msg : Type} (ops : List (WSOp Msg))
    (h : ops.all (fun op => !isMessageOp op) = true) :
    lateSubscribeEmit (wsRun WSInit ops) = none := by
  have gen : ∀ (s : WSState Msg) (ops' : List (WSOp Msg)),
      ops'.all (fun op => !isMessageOp op) = true →
      (wsRun s ops').latest = s.latest := by
    intro s ops'
    induction ops' generalizing s with
    | nil => intro _; rfl
    | cons op rest ih =>
      intro h'
      simp only [List.all_cons, Bool.and_eq_true, Bool.not_eq_true'] at h'
      show (wsRun (wsStep s op).1 rest).latest = s.latest
      rw [ih (wsStep s op).1 (by simpa using h'.2), wsStep_latest s op h'.1]
  show (wsRun WSInit ops).latest = none
  rw [gen WSInit ops h]
  rfl

/-- C10 (witness): a subscriber that attaches after `initialize()`, a
transport error and a reconnection — but before any message — receives
`null`. -/
theorem c10_initial_null_witness :
    lateSubscribeEmit (wsRun (WSInit : WSState Nat)
        [.start, .transportError, .transportComplete, .close, .start]) = none :=
  c10_initial_null [.start, .transportError, .transportComplete, .close, .start] (by decide)

/-!
Ordering lemmas for JS timestamp comparisons, and the lower-bound
characterization of the binary-search insertion position.
-/

/-- Fact: `a ≤ b` and `b < ts` give `a < ts` (all comparisons JS-style). -/
theorem jslt_of_jsle_of_jslt {a b ts : JSTime} (h1 : jsle a b = true)
    (h2 : jslt b ts = true) : jslt a ts = true := by
  cases a <;> cases b <;> cases ts <;> simp_all [jsle, jslt] <;> omega

/-- Fact: `b ≤ c` and `¬(b < ts)` give `¬(c < ts)` (all comparisons JS-style). -/
theorem jslt_eq_false_of_jsle {b c ts : JSTime} (h1 : jsle b c = true)
    (h2 : jslt b ts = false) : jslt c ts = false := by
  cases b <;> cases c <;> cases ts <;> simp_all [jsle, jslt] <;> omega

/-- Strict implies non-strict. -/
theorem jsle_of_jslt {a b : JSTime} (h : jslt a b = true) : jsle a b = true := by
  cases a <;> cases b <;> simp_all [jsle, jslt] <;> omega

/-- For finite values, `¬(y < x)` gives `x ≤ y`. -/
theorem jsle_of_fin_not_lt {x y : Int} (h : jslt (.fin y) (.fin x) = false) :
    jsle (.fin x) (.fin y) = true := by
  simp [jslt, jsle] at h ⊢
  omega

/-- In-bounds `getD` reads are plain reads. -/
theorem getD_eq_getElem (l : List TracePoint) (i : Nat) (h : i < l.length) :
    l.getD i defaultPoint = l[i] := by
  simp [List.getD_eq_getElem?_getD, List.getElem?_eq_getElem h]

/-- The binary-search loop, run on a sorted window with enough fuel and
with its invariant holding at the borders, lands on the lower bound for
`ts`: everything strictly before the returned position compares `< ts`,
nothing from the position on does. -/
theorem insertPosAux_spec (parse : String → JSTime) (buffer : List TracePoint)
    (ts : JSTime)
    (hsorted : List.Pairwise
      (fun a b => jsle (pointKey parse a) (pointKey parse b) = true) buffer) :
    ∀ (fuel left right : Nat), left ≤ right → right ≤ buffer.length →
      right - left ≤ fuel →
      (∀ i (hi : i < buffer.length), i < left →
        jslt (pointKey parse buffer[i]) ts = true) →
      (∀ i (hi : i < buffer.length), right ≤ i →
        jslt (pointKey parse buffer[i]) ts = false) →
      insertPosAux parse buffer ts fuel left right ≤ buffer.length ∧
      (∀ i (hi : i < buffer.length),
        i < insertPosAux parse buffer ts fuel left right →
        jslt (pointKey parse buffer[i]) ts = true) ∧
      (∀ i (hi : i < buffer.length),
        insertPosAux parse buffer ts fuel left right ≤ i →
        jslt (pointKey parse buffer[i]) ts = false) := by
  intro fuel
  induction fuel with
  | zero =>
    intro left right hlr hr hfuel hl hu
    have heq : left = right := by omega
    subst heq
    simp only [insertPosAux]
    exact ⟨by omega, fun i hi h => hl i hi h, fun i hi h => hu i hi h⟩
  | succ fuel ih =>
    intro left right hlr hr hfuel hl hu
    by_cases hcase : left < right
    · have hmid1 : left ≤ (left + right) / 2 := by omega
      have hmid2 : (left + right) / 2 < right := by omega
      have hmidlen : (left + right) / 2 < buffer.length := by omega
      simp only [insertPosAux, if_pos hcase]
      rw [getD_eq_getElem buffer _ hmidlen]
      by_cases hc : jslt (pointKey parse buffer[(left + right) / 2]) ts = true
      · rw [if_pos hc]
        refine ih ((left + right) / 2 + 1) right (by omega) hr (by omega) ?_ hu
        intro i hi hlt
        by_cases hi2 : i < left
        · exact hl i hi hi2
        · rcases Nat.lt_or_ge i ((left + right) / 2) with h3 | h3
          · exact jslt_of_jsle_of_jslt
              (List.pairwise_iff_getElem.mp hsorted i _ hi hmidlen h3) hc
          · have heq : i = (left + right) / 2 := by omega
            subst heq
            exact hc
      · have hc' : jslt (pointKey parse buffer[(left + right) / 2]) ts = false := by
          cases h : jslt (pointKey parse buffer[(left + right) / 2]) ts
          · rfl
          · exact absurd h hc
        rw [if_neg hc]
        refine ih left ((left + right) / 2) hmid1 (by omega) (by omega) hl ?_
        intro i hi hge
        rcases Nat.lt_or_ge ((left + right) / 2) i with h3 | h3
        · exact jslt_eq_false_of_jsle
            (List.pairwise_iff_getElem.mp hsorted _ i hmidlen hi h3) hc'
        · have heq : i = (left + right) / 2 := by omega
          subst heq
          exact hc'
    · simp only [insertPosAux, if_neg hcase]
      have heq : left = right := by omega
      exact ⟨by omega, fun i hi h => hl i hi h, fun i hi h => hu i hi (by omega)⟩

/-- Lower-bound property of `insertPos` over the whole buffer. -/
theorem insertPos_spec (parse : String → JSTime) (buffer : List TracePoint)
    (ts : JSTime)
    (hsorted : List.Pairwise
      (fun a b => jsle (pointKey parse a) (pointKey parse b) = true) buffer) :
    insertPos parse buffer ts 0 buffer.length ≤ buffer.length ∧
    (∀ i (hi : i < buffer.length),
      i < insertPos parse buffer ts 0 buffer.length →
      jslt (pointKey parse buffer[i]) ts = true) ∧
    (∀ i (hi : i < buffer.length),
      insertPos parse buffer ts 0 buffer.length ≤ i →
      jslt (pointKey parse buffer[i]) ts = false) := by
  exact insertPosAux_spec parse buffer ts hsorted (buffer.length - 0) 0 buffer.length
    (by omega) (by omega) (by omega)
    (fun i hi h => absurd h (by omega))
    (fun i hi h => absurd hi (by omega))

/-- Membership in the spliced buffer. -/
theorem mem_insertSorted (parse : String → JSTime) (buffer : List TracePoint)
    (point q : TracePoint) :
    q ∈ insertSorted parse buffer point ↔ q = point ∨ q ∈ buffer := by
  simp only [insertSorted, List.mem_append, List.mem_cons]
  constructor
  · rintro (h | h | h)
    · exact Or.inr (List.mem_of_mem_take h)
    · exact Or.inl h
    · exact Or.inr (List.mem_of_mem_drop h)
  · rintro (rfl | h)
    · exact Or.inr (Or.inl rfl)
    · rw [← List.take_append_drop
        (insertPos parse buffer (parseTimestamp parse point.Timestamp) 0 buffer.length)
        buffer] at h
      rcases List.mem_append.mp h with h | h
      · exact Or.inl h
      · exact Or.inr (Or.inr h)

/-- The Boolean finiteness test, unfolded. -/
theorem finiteKeyB_iff (parse : String → JSTime) (p : TracePoint) :
    finiteKeyB parse p = true ↔ ∃ v, pointKey parse p = .fin v := by
  unfold finiteKeyB pointKey
  cases h : parseTimestamp parse p.Timestamp <;> simp

/-- Sorted insertion of a finite-key point into a sorted buffer of
finite-key points produces a sorted buffer. -/
theorem insertSorted_sorted (parse : String → JSTime) (buffer : List TracePoint)
    (point : TracePoint)
    (hsorted : List.Pairwise
      (fun a b => jsle (pointKey parse a) (pointKey parse b) = true) buffer)
    (hfin : ∀ p ∈ buffer, finiteKeyB parse p = true)
    (hp : finiteKeyB parse point = true) :
    List.Pairwise (fun a b => jsle (pointKey parse a) (pointKey parse b) = true)
      (insertSorted parse buffer point) := by
  obtain ⟨tv, htv⟩ := (finiteKeyB_iff parse point).mp hp
  have hts : parseTimestamp parse point.Timestamp = .fin tv := htv
  obtain ⟨hle, hlow, hhigh⟩ :=
    insertPos_spec parse buffer (parseTimestamp parse point.Timestamp) hsorted
  simp only [insertSorted]
  rw [List.pairwise_append]
  refine ⟨hsorted.sublist (List.take_sublist _ _), ?_, ?_⟩
  · rw [List.pairwise_cons]
    refine ⟨?_, hsorted.sublist (List.drop_sublist _ _)⟩
    intro b hb
    obtain ⟨j, hj, heq⟩ := List.mem_iff_getElem.mp hb
    have hjlen : insertPos parse buffer (parseTimestamp parse point.Timestamp)
        0 buffer.length + j < buffer.length := by
      have := hj
      simp only [List.length_drop] at this
      omega
    have heq2 : buffer[insertPos parse buffer
        (parseTimestamp parse point.Timestamp) 0 buffer.length + j] = b := by
      rw [← heq, List.getElem_drop]
    have hnotlt := hhigh _ hjlen (by omega)
    rw [heq2] at hnotlt
    obtain ⟨bv, hbv⟩ := (finiteKeyB_iff parse b).mp
      (hfin b (List.mem_of_mem_drop hb))
    rw [hts, hbv] at hnotlt
    show jsle (pointKey parse point) (pointKey parse b) = true
    rw [htv, hbv]
    exact jsle_of_fin_not_lt hnotlt
  · intro a ha b hb
    obtain ⟨i, hi, heqa⟩ := List.mem_iff_getElem.mp ha
    have hilen : i < buffer.length := by
      have := hi
      simp only [List.length_take] at this
      omega
    have hipos : i < insertPos parse buffer (parseTimestamp parse point.Timestamp)
        0 buffer.length := by
      have := hi
      simp only [List.length_take] at this
      omega
    have heqa2 : buffer[i] = a := by
      rw [← heqa, List.getElem_take]
    rcases List.mem_cons.mp hb with rfl | hb'
    · have hlt := hlow i hilen hipos
      rw [heqa2, hts] at hlt
      show jsle (pointKey parse a) (pointKey parse b) = true
      rw [htv]
      exact jsle_of_jslt hlt
    · obtain ⟨j, hj, heqb⟩ := List.mem_iff_getElem.mp hb'
      have hjlen : insertPos parse buffer (parseTimestamp parse point.Timestamp)
          0 buffer.length + j < buffer.length := by
        have := hj
        simp only [List.length_drop] at this
        omega
      have heqb2 : buffer[insertPos parse buffer
          (parseTimestamp parse point.Timestamp) 0 buffer.length + j] = b := by
        rw [← heqb, List.getElem_drop]
      have hpair := List.pairwise_iff_getElem.mp hsorted i _ hilen hjlen (by omega)
      rw [heqa2, heqb2] at hpair
      exact hpair

/-!
State-level invariants of the reconciliation buffer.
-/

/-- Well-formedness of one buffer: sorted ascending by parsed key, every
key finite. -/
def goodBuffer (parse : String → JSTime) (l : List TracePoint) : Prop :=
  List.Pairwise (fun a b => jsle (pointKey parse a) (pointKey parse b) = true) l ∧
  ∀ p ∈ l, finiteKeyB parse p = true

/-- The empty buffer is well-formed. -/
theorem goodBuffer_nil (parse : String → JSTime) : goodBuffer parse [] :=
  ⟨List.Pairwise.nil, by simp⟩

/-- Sorted insertion preserves buffer well-formedness. -/
theorem goodBuffer_insert (parse : String → JSTime) {l : List TracePoint}
    {point : TracePoint} (h : goodBuffer parse l)
    (hp : finiteKeyB parse point = true) :
    goodBuffer parse (insertSorted parse l point) := by
  refine ⟨insertSorted_sorted parse l point h.1 h.2 hp, fun q hq => ?_⟩
  rcases (mem_insertSorted parse l point q).mp hq with rfl | hmem
  · exact hp
  · exact h.2 q hmem

/-- Normalization does not change the parsed key. -/
theorem pointKey_normalizePoint (parse : String → JSTime) (p : TracePoint) :
    pointKey parse (normalizePoint p) = pointKey parse p := rfl

/-- Normalization does not change key finiteness. -/
theorem finiteKeyB_normalizePoint (parse : String → JSTime) (p : TracePoint) :
    finiteKeyB parse (normalizePoint p) = finiteKeyB parse p := rfl

/-- Fact: `addToRealtime` when the key is already indexed: no-op. -/
theorem addToRealtime_mem (parse : String → JSTime) (s : TraceState)
    (p : TracePoint) (h : hashPoint (normalizePoint p) ∈ s.realtimeHashSet) :
    addToRealtime parse s p = s := by
  simp [addToRealtime, h]

/-- Fact: `addToRealtime` when the key is new: sorted insertion plus rebuild. -/
theorem addToRealtime_not_mem (parse : String → JSTime) (s : TraceState)
    (p : TracePoint) (h : hashPoint (normalizePoint p) ∉ s.realtimeHashSet) :
    addToRealtime parse s p =
      { s with
        realtimeBuffer := insertSorted parse s.realtimeBuffer (normalizePoint p)
        realtimeHashSet := hashPoint (normalizePoint p) :: s.realtimeHashSet
        finalBuffer := rebuildFinalBuffer parse s.dummyBuffer
          (insertSorted parse s.realtimeBuffer (normalizePoint p)) } := by
  simp [addToRealtime, h]

/-- Fact: `addToDummy` when the key is already indexed: no-op. -/
theorem addToDummy_mem (parse : String → JSTime) (s : TraceState)
    (p : TracePoint) (h : hashPoint (normalizePoint p) ∈ s.dummyHashSet) :
    addToDummy parse s p = s := by
  simp [addToDummy, h]

/-- Fact: `addToDummy` when the key is new: sorted insertion plus rebuild. -/
theorem addToDummy_not_mem (parse : String → JSTime) (s : TraceState)
    (p : TracePoint) (h : hashPoint (normalizePoint p) ∉ s.dummyHashSet) :
    addToDummy parse s p =
      { s with
        dummyBuffer := insertSorted parse s.dummyBuffer (normalizePoint p)
        dummyHashSet := hashPoint (normalizePoint p) :: s.dummyHashSet
        finalBuffer := rebuildFinalBuffer parse
          (insertSorted parse s.dummyBuffer (normalizePoint p)) s.realtimeBuffer } := by
  simp [addToDummy, h]

/-- Fact: `addToDummy` never touches the live buffer or its index. -/
theorem addToDummy_realtime (parse : String → JSTime) (s : TraceState)
    (p : TracePoint) :
    (addToDummy parse s p).realtimeBuffer = s.realtimeBuffer ∧
    (addToDummy parse s p).realtimeHashSet = s.realtimeHashSet := by
  by_cases h : hashPoint (normalizePoint p) ∈ s.dummyHashSet
  · rw [addToDummy_mem parse s p h]
    exact ⟨rfl, rfl⟩
  · rw [addToDummy_not_mem parse s p h]
    exact ⟨rfl, rfl⟩

/-- Fact: `addToRealtime` never touches the historical buffer or its index. -/
theorem addToRealtime_dummy (parse : String → JSTime) (s : TraceState)
    (p : TracePoint) :
    (addToRealtime parse s p).dummyBuffer = s.dummyBuffer ∧
    (addToRealtime parse s p).dummyHashSet = s.dummyHashSet := by
  by_cases h : hashPoint (normalizePoint p) ∈ s.realtimeHashSet
  · rw [addToRealtime_mem parse s p h]
    exact ⟨rfl, rfl⟩
  · rw [addToRealtime_not_mem parse s p h]
    exact ⟨rfl, rfl⟩

/-- The merged-buffer synchronization invariant: `finalBuffer` is the
rebuild of the current source buffers. -/
def traceInv (parse : String → JSTime) (s : TraceState) : Prop :=
  s.finalBuffer = rebuildFinalBuffer parse s.dummyBuffer s.realtimeBuffer

/-- The freshly constructed service satisfies the invariant. -/
theorem traceInv_initial (parse : String → JSTime) : traceInv parse initialTrace := rfl

/-- Fact: `addToRealtime` preserves the invariant. -/
theorem addToRealtime_traceInv (parse : String → JSTime) (s : TraceState)
    (p : TracePoint) (h : traceInv parse s) :
    traceInv parse (addToRealtime parse s p) := by
  by_cases hm : hashPoint (normalizePoint p) ∈ s.realtimeHashSet
  · rw [addToRealtime_mem parse s p hm]
    exact h
  · rw [addToRealtime_not_mem parse s p hm]
    rfl

/-- Fact: `addToDummy` preserves the invariant. -/
theorem addToDummy_traceInv (parse : String → JSTime) (s : TraceState)
    (p : TracePoint) (h : traceInv parse s) :
    traceInv parse (addToDummy parse s p) := by
  by_cases hm : hashPoint (normalizePoint p) ∈ s.dummyHashSet
  · rw [addToDummy_mem parse s p hm]
    exact h
  · rw [addToDummy_not_mem parse s p hm]
    rfl

/-- A fold of `addToDummy` preserves the invariant. -/
theorem foldl_addToDummy_traceInv (parse : String → JSTime)
    (pts : List TracePoint) (s : TraceState) (h : traceInv parse s) :
    traceInv parse (pts.foldl (addToDummy parse) s) := by
  induction pts generalizing s with
  | nil => exact h
  | cons p rest ih => exact ih (addToDummy parse s p) (addToDummy_traceInv parse s p h)

/-- A non-empty historical batch re-establishes the invariant: the first
point of the batch is always inserted (the index was just cleared), and
that insertion rebuilds the merged buffer. -/
theorem replaceHistorical_traceInv (parse : String → JSTime) (s : TraceState)
    (pts : List TracePoint) (hne : pts ≠ []) :
    traceInv parse (replaceHistorical parse s pts) := by
  cases pts with
  | nil => exact absurd rfl hne
  | cons p rest =>
    show traceInv parse
      (rest.foldl (addToDummy parse)
        (addToDummy parse { s with dummyBuffer := [], dummyHashSet := [] } p))
    refine foldl_addToDummy_traceInv parse rest _ ?_
    rw [addToDummy_not_mem parse _ p (by simp)]
    rfl

/-- The de-duplication pass only removes elements. -/
theorem dedupFirst_sublist : ∀ (l : List TracePoint) (seen : List (ℤ × ℤ × String)),
    List.Sublist (dedupFirst l seen) l
  | [], _ => List.Sublist.slnil
  | p :: rest, seen => by
    simp only [dedupFirst]
    by_cases h : hashPoint p ∈ seen
    · rw [if_pos h]
      exact (dedupFirst_sublist rest seen).cons p
    · rw [if_neg h]
      exact (dedupFirst_sublist rest (hashPoint p :: seen)).cons₂ p

/-- Everything in the merged buffer comes from one of the two sources. -/
theorem mem_rebuildFinalBuffer (parse : String → JSTime) (A Ball : List TracePoint)
    (p : TracePoint) (h : p ∈ rebuildFinalBuffer parse A Ball) :
    p ∈ A ∨ p ∈ Ball := by
  have hsub := dedupFirst_sublist
    (A ++ if A.length = 0 then Ball
      else Ball.filter (fun q => jsgt (pointKey parse q)
        (pointKey parse (A.getLast?.getD defaultPoint)))) []
  have hmem := hsub.subset h
  rcases List.mem_append.mp hmem with h1 | h1
  · exact Or.inl h1
  · by_cases hA : A.length = 0
    · rw [if_pos hA] at h1
      exact Or.inr h1
    · rw [if_neg hA] at h1
      exact Or.inr (List.mem_of_mem_filter h1)

/-- In a well-formed non-empty buffer, every key is bounded by the key of
the last element (the cutover timestamp). -/
theorem key_le_getLast (parse : String → JSTime) (l : List TracePoint)
    (hgood : goodBuffer parse l) (hne : l ≠ []) (a : TracePoint) (ha : a ∈ l) :
    jsle (pointKey parse a) (pointKey parse (l.getLast hne)) = true := by
  obtain ⟨i, hi, heqa⟩ := List.mem_iff_getElem.mp ha
  have hlast : l.getLast hne = l[l.length - 1] := List.getLast_eq_getElem l hne
  rcases Nat.lt_or_ge i (l.length - 1) with h3 | h3
  · have hpair := List.pairwise_iff_getElem.mp hgood.1 i (l.length - 1) hi
      (by omega) h3
    rw [heqa] at hpair
    rw [hlast]
    exact hpair
  · have : i = l.length - 1 := by omega
    subst this
    rw [hlast, heqa]
    obtain ⟨v, hv⟩ := (finiteKeyB_iff parse a).mp (hgood.2 a ha)
    rw [hv]
    simp [jsle]

/-- The merged buffer built from two well-formed sources is sorted
ascending by parsed key. -/
theorem rebuild_sorted (parse : String → JSTime) (A Ball : List TracePoint)
    (hA : goodBuffer parse A) (hB : goodBuffer parse Ball) :
    List.Pairwise (fun a b => jsle (pointKey parse a) (pointKey parse b) = true)
      (rebuildFinalBuffer parse A Ball) := by
  refine List.Pairwise.sublist (dedupFirst_sublist _ []) ?_
  by_cases hlen : A.length = 0
  · have : A = [] := List.length_eq_zero.mp hlen
    subst this
    simp only [if_pos rfl, List.nil_append]
    exact hB.1
  · rw [if_neg hlen]
    have hne : A ≠ [] := by
      intro h
      exact hlen (by simp [h])
    rw [List.pairwise_append]
    refine ⟨hA.1, List.Pairwise.sublist (List.filter_sublist _) hB.1, ?_⟩
    intro a ha b hb
    have hbf := List.of_mem_filter hb
    simp only [decide_eq_true_eq] at hbf
    have hcut : pointKey parse (A.getLast?.getD defaultPoint)
        = pointKey parse (A.getLast hne) := by
      rw [List.getLast?_eq_getLast A hne]
      rfl
    rw [hcut] at hbf
    have hle := key_le_getLast parse A hA hne a ha
    exact jsle_of_jslt (jslt_of_jsle_of_jslt hle hbf)

/-- Fact: `addToRealtime` preserves live-buffer well-formedness for finite-key
input points. -/
theorem addToRealtime_good (parse : String → JSTime) (s : TraceState)
    (p : TracePoint) (h : goodBuffer parse s.realtimeBuffer)
    (hp : finiteKeyB parse p = true) :
    goodBuffer parse (addToRealtime parse s p).realtimeBuffer := by
  by_cases hm : hashPoint (normalizePoint p) ∈ s.realtimeHashSet
  · rw [addToRealtime_mem parse s p hm]
    exact h
  · rw [addToRealtime_not_mem parse s p hm]
    exact goodBuffer_insert parse h (by rw [finiteKeyB_normalizePoint]; exact hp)

/-- Fact: `addToDummy` preserves historical-buffer well-formedness for finite-key
input points. -/
theorem addToDummy_good (parse : String → JSTime) (s : TraceState)
    (p : TracePoint) (h : goodBuffer parse s.dummyBuffer)
    (hp : finiteKeyB parse p = true) :
    goodBuffer parse (addToDummy parse s p).dummyBuffer := by
  by_cases hm : hashPoint (normalizePoint p) ∈ s.dummyHashSet
  · rw [addToDummy_mem parse s p hm]
    exact h
  · rw [addToDummy_not_mem parse s p hm]
    exact goodBuffer_insert parse h (by rw [finiteKeyB_normalizePoint]; exact hp)

/-- A fold of `addToDummy` preserves historical-buffer well-formedness. -/
theorem foldl_addToDummy_good (parse : String → JSTime)
    (pts : List TracePoint) (s : TraceState)
    (hd : goodBuffer parse s.dummyBuffer)
    (hpts : pts.all (finiteKeyB parse) = true) :
    goodBuffer parse ((pts.foldl (addToDummy parse) s).dummyBuffer) := by
  induction pts generalizing s with
  | nil => exact hd
  | cons p rest ih =>
    simp only [List.all_cons, Bool.and_eq_true] at hpts
    exact ih (addToDummy parse s p) (addToDummy_good parse s p hd hpts.1) hpts.2

/-- A fold of `addToDummy` keeps the live side untouched. -/
theorem foldl_addToDummy_realtime (parse : String → JSTime)
    (pts : List TracePoint) (s : TraceState) :
    ((pts.foldl (addToDummy parse) s).realtimeBuffer = s.realtimeBuffer) ∧
    ((pts.foldl (addToDummy parse) s).realtimeHashSet = s.realtimeHashSet) := by
  induction pts generalizing s with
  | nil => exact ⟨rfl, rfl⟩
  | cons p rest ih =>
    have h1 := addToDummy_realtime parse s p
    have h2 := ih (addToDummy parse s p)
    exact ⟨h2.1.trans h1.1, h2.2.trans h1.2⟩

/-- Both source buffers stay well-formed along any run whose points all
have finite parsed keys. -/
theorem runTrace_good (parse : String → JSTime) (ops : List TraceOp)
    (s : TraceState) (hd : goodBuffer parse s.dummyBuffer)
    (hr : goodBuffer parse s.realtimeBuffer)
    (hfin : ops.all (opFiniteB parse) = true) :
    goodBuffer parse (runTrace parse s ops).dummyBuffer ∧
    goodBuffer parse (runTrace parse s ops).realtimeBuffer := by
  induction ops generalizing s with
  | nil => exact ⟨hd, hr⟩
  | cons op rest ih =>
    simp only [List.all_cons, Bool.and_eq_true] at hfin
    show goodBuffer parse (runTrace parse (traceStep parse s op) rest).dummyBuffer ∧
      goodBuffer parse (runTrace parse (traceStep parse s op) rest).realtimeBuffer
    cases op with
    | replaceHist pts =>
      refine ih (traceStep parse s (.replaceHist pts)) ?_ ?_ hfin.2
      · exact foldl_addToDummy_good parse pts _ (goodBuffer_nil parse) hfin.1
      · show goodBuffer parse
          ((pts.foldl (addToDummy parse)
            { s with dummyBuffer := [], dummyHashSet := [] }).realtimeBuffer)
        rw [(foldl_addToDummy_realtime parse pts _).1]
        exact hr
    | appendLive p =>
      refine ih (traceStep parse s (.appendLive p)) ?_ ?_ hfin.2
      · show goodBuffer parse ((addToRealtime parse s p).dummyBuffer)
        rw [(addToRealtime_dummy parse s p).1]
        exact hd
      · exact addToRealtime_good parse s p hr hfin.1
    | reset =>
      exact ih initialTrace (goodBuffer_nil parse) (goodBuffer_nil parse) hfin.2

/-- The merged buffer stays synchronized with its sources along any run in
which every historical batch is non-empty. -/
theorem runTrace_traceInv (parse : String → JSTime) (ops : List TraceOp)
    (s : TraceState) (h : traceInv parse s) (hbatch : ops.all batchOkB = true) :
    traceInv parse (runTrace parse s ops) := by
  induction ops generalizing s with
  | nil => exact h
  | cons op rest ih =>
    simp only [List.all_cons, Bool.and_eq_true] at hbatch
    show traceInv parse (runTrace parse (traceStep parse s op) rest)
    cases op with
    | replaceHist pts =>
      refine ih _ ?_ hbatch.2
      refine replaceHistorical_traceInv parse s pts ?_
      have := hbatch.1
      simp only [batchOkB, Bool.not_eq_true'] at this
      intro hcontra
      subst hcontra
      simp at this
    | appendLive p => exact ih _ (addToRealtime_traceInv parse s p h) hbatch.2
    | reset => exact ih _ (traceInv_initial parse) hbatch.2

/-- The source's `rebuildFinalBuffer` computes exactly the spec's merge
formula. -/
theorem rebuild_eq_specMerge (parse : String → JSTime) (A Ball : List TracePoint) :
    rebuildFinalBuffer parse A Ball = specMerge parse A Ball := by
  cases A with
  | nil => simp [rebuildFinalBuffer, specMerge]
  | cons a as =>
    have hne : (a :: as) ≠ [] := by simp
    simp only [rebuildFinalBuffer, specMerge, List.getLast?_eq_getLast (a :: as) hne]
    rw [if_neg (by simp)]
    rfl

/-- The historical side of a fold of `addToDummy` depends only on the
historical side of the start state. -/
theorem foldl_addToDummy_canonical (parse : String → JSTime) :
    ∀ (pts : List TracePoint) (s t : TraceState),
    s.dummyBuffer = t.dummyBuffer → s.dummyHashSet = t.dummyHashSet →
    ((pts.foldl (addToDummy parse) s).dummyBuffer
      = (pts.foldl (addToDummy parse) t).dummyBuffer) ∧
    ((pts.foldl (addToDummy parse) s).dummyHashSet
      = (pts.foldl (addToDummy parse) t).dummyHashSet)
  | [], s, t, h1, h2 => ⟨h1, h2⟩
  | p :: rest, s, t, h1, h2 => by
    refine foldl_addToDummy_canonical parse rest _ _ ?_ ?_
    · by_cases hm : hashPoint (normalizePoint p) ∈ s.dummyHashSet
      · rw [addToDummy_mem parse s p hm, addToDummy_mem parse t p (h2 ▸ hm)]
        exact h1
      · rw [addToDummy_not_mem parse s p hm,
          addToDummy_not_mem parse t p (h2 ▸ hm)]
        show insertSorted parse s.dummyBuffer _ = insertSorted parse t.dummyBuffer _
        rw [h1]
    · by_cases hm : hashPoint (normalizePoint p) ∈ s.dummyHashSet
      · rw [addToDummy_mem parse s p hm, addToDummy_mem parse t p (h2 ▸ hm)]
        exact h2
      · rw [addToDummy_not_mem parse s p hm,
          addToDummy_not_mem parse t p (h2 ▸ hm)]
        show _ :: s.dummyHashSet = _ :: t.dummyHashSet
        rw [h2]

/-- Every point held in the historical buffer after a fold of `addToDummy`
is either inherited from the start state or the normalization of a batch
point. -/
theorem foldl_addToDummy_mem (parse : String → JSTime) :
    ∀ (pts : List TracePoint) (s : TraceState) (p : TracePoint),
    p ∈ (pts.foldl (addToDummy parse) s).dummyBuffer →
    p ∈ s.dummyBuffer ∨ ∃ q ∈ pts, p = normalizePoint q
  | [], s, p, h => Or.inl h
  | q0 :: rest, s, p, h => by
    rcases foldl_addToDummy_mem parse rest (addToDummy parse s q0) p h with h1 | h1
    · by_cases hm : hashPoint (normalizePoint q0) ∈ s.dummyHashSet
      · rw [addToDummy_mem parse s q0 hm] at h1
        exact Or.inl h1
      · rw [addToDummy_not_mem parse s q0 hm] at h1
        rcases (mem_insertSorted parse s.dummyBuffer (normalizePoint q0) p).mp h1
          with h2 | h2
        · exact Or.inr ⟨q0, List.mem_cons_self q0 rest, h2⟩
        · exact Or.inl h2
    · obtain ⟨q, hq, heq⟩ := h1
      exact Or.inr ⟨q, List.mem_cons_of_mem q0 hq, heq⟩

/-- Fact: `replaceHistorical` leaves the live side untouched. -/
theorem replaceHistorical_realtime (parse : String → JSTime) (s : TraceState)
    (pts : List TracePoint) :
    (replaceHistorical parse s pts).realtimeBuffer = s.realtimeBuffer := by
  show ((pts.foldl (addToDummy parse) _).realtimeBuffer) = s.realtimeBuffer
  rw [(foldl_addToDummy_realtime parse pts _).1]

/-- Nothing is JS-less-than `NaN`. -/
theorem jslt_nan_right (a : JSTime) : jslt a .nan = false := by
  cases a <;> rfl

/-- Refined source of merged-buffer members when H is non-empty: points
coming from the live side passed the cutover filter. -/
theorem mem_rebuild_filtered (parse : String → JSTime) (A Ball : List TracePoint)
    (p : TracePoint) (hA : ¬ A.length = 0) (h : p ∈ rebuildFinalBuffer parse A Ball) :
    p ∈ A ∨ (p ∈ Ball ∧
      jsgt (pointKey parse p)
        (pointKey parse (A.getLast?.getD defaultPoint)) = true) := by
  have hsub := dedupFirst_sublist
    (A ++ if A.length = 0 then Ball
      else Ball.filter (fun q => jsgt (pointKey parse q)
        (pointKey parse (A.getLast?.getD defaultPoint)))) []
  have hmem := hsub.subset h
  rcases List.mem_append.mp hmem with h1 | h1
  · exact Or.inl h1
  · rw [if_neg hA] at h1
    refine Or.inr ⟨List.mem_of_mem_filter h1, ?_⟩
    have := List.of_mem_filter h1
    simpa using this

/-- If no stored key compares `< ts`, the binary search always moves its
upper bound and returns `left` unchanged. -/
theorem insertPosAux_all_false (parse : String → JSTime)
    (buffer : List TracePoint) (ts : JSTime)
    (h : ∀ i (hi : i < buffer.length), jslt (pointKey parse buffer[i]) ts = false) :
    ∀ (fuel left right : Nat), right ≤ buffer.length →
    insertPosAux parse buffer ts fuel left right = left := by
  intro fuel
  induction fuel with
  | zero => intro left right hr; rfl
  | succ fuel ih =>
    intro left right hr
    by_cases hcase : left < right
    · have hmidlen : (left + right) / 2 < buffer.length := by omega
      simp only [insertPosAux, if_pos hcase]
      rw [getD_eq_getElem buffer _ hmidlen, h _ hmidlen, if_neg (by simp)]
      exact ih left ((left + right) / 2) (by omega)
    · simp only [insertPosAux, if_neg hcase]

/-- A point whose key is below every stored key is spliced in at the very
front of the buffer. -/
theorem insertSorted_front (parse : String → JSTime) (buf : List TracePoint)
    (p : TracePoint)
    (h : ∀ a ∈ buf, jslt (pointKey parse a)
      (parseTimestamp parse p.Timestamp) = false) :
    insertSorted parse buf p = p :: buf := by
  have hall : ∀ i (hi : i < buf.length),
      jslt (pointKey parse buf[i]) (parseTimestamp parse p.Timestamp) = false :=
    fun i hi => h buf[i] (List.getElem_mem hi)
  simp only [insertSorted, insertPos,
    insertPosAux_all_false parse buf _ hall _ 0 buf.length (by omega)]
  simp

/-!
Claim theorems for the Point Reconciliation Buffer (C1, C4, C5, C6, C9).
-/

/-- C1 (counterexample): the merge invariant is not maintained across every
operation sequence — a `get_history` answer carrying an empty array clears
H and its index but never triggers a rebuild, so `current()` keeps serving
the merge of the previous H: after `replaceHistorical [{t=10}]` followed by
`replaceHistorical []`, H and L are empty yet `current()` still returns the
old historical point, while the invariant demands `dedup(L) = []`. -/
theorem c1_merge_invariant_counterexample :
    ((runTrace demoParse initialTrace
        [.replaceHist [⟨1, 1, some "10"⟩], .replaceHist []]).dummyBuffer = []) ∧
    ((runTrace demoParse initialTrace
        [.replaceHist [⟨1, 1, some "10"⟩], .replaceHist []]).realtimeBuffer = []) ∧
    ((runTrace demoParse initialTrace
        [.replaceHist [⟨1, 1, some "10"⟩], .replaceHist []]).finalBuffer
      = [⟨1, 1, some "10"⟩]) ∧
    (runTrace demoParse initialTrace
        [.replaceHist [⟨1, 1, some "10"⟩], .replaceHist []]).finalBuffer
      ≠ specMerge demoParse
          (runTrace demoParse initialTrace
            [.replaceHist [⟨1, 1, some "10"⟩], .replaceHist []]).dummyBuffer
          (runTrace demoParse initialTrace
            [.replaceHist [⟨1, 1, some "10"⟩], .replaceHist []]).realtimeBuffer := by
  decide

/-- C1 (amended): for every sequence of `replaceHistorical`, `appendLive`
and `reset` operations in which every historical batch carries at least one
point, `current()` equals the spec's merge formula
`dedup(H ++ {p ∈ L : ts(p) > ts(last H)})` (or `dedup(L)` for empty H),
first occurrence by identity key winning; the merged order is ascending by
parsed timestamp whenever every involved timestamp parses to a finite
value; and the concrete example H = [{t=10},{t=20}], L = [{t=5},{t=15},
{t=25}] yields exactly [{t=10},{t=20},{t=25}]. -/
theorem c1_merge_invariant_amended :
    (∀ (parse : String → JSTime) (ops : List TraceOp), ops.all batchOkB = true →
      (runTrace parse initialTrace ops).finalBuffer
        = specMerge parse (runTrace parse initialTrace ops).dummyBuffer
            (runTrace parse initialTrace ops).realtimeBuffer) ∧
    (∀ (parse : String → JSTime) (ops : List TraceOp), ops.all batchOkB = true →
      ops.all (opFiniteB parse) = true →
      List.Pairwise (fun a b => jsle (pointKey parse a) (pointKey parse b) = true)
        (runTrace parse initialTrace ops).finalBuffer) ∧
    (runTrace demoParse initialTrace
        [.replaceHist [⟨1, 1, some "10"⟩, ⟨2, 2, some "20"⟩],
         .appendLive ⟨3, 3, some "5"⟩, .appendLive ⟨4, 4, some "15"⟩,
         .appendLive ⟨5, 5, some "25"⟩]).finalBuffer
      = [⟨1, 1, some "10"⟩, ⟨2, 2, some "20"⟩, ⟨5, 5, some "25"⟩] := by
  refine ⟨?_, ?_, by decide⟩
  · intro parse ops hbatch
    have h := runTrace_traceInv parse ops initialTrace (traceInv_initial parse) hbatch
    rw [traceInv] at h
    rw [h, rebuild_eq_specMerge]
  · intro parse ops hbatch hfin
    have h := runTrace_traceInv parse ops initialTrace (traceInv_initial parse) hbatch
    obtain ⟨hd, hr⟩ := runTrace_good parse ops initialTrace (goodBuffer_nil parse)
      (goodBuffer_nil parse) hfin
    rw [traceInv] at h
    rw [h]
    exact rebuild_sorted parse _ _ hd hr

/-- C1 (witness): the merge-formula clause applied to a concrete run with a
non-empty batch and one live append. -/
theorem c1_merge_invariant_witness :
    (runTrace demoParse initialTrace
        [.replaceHist [⟨1, 1, some "10"⟩], .appendLive ⟨2, 2, some "25"⟩]).finalBuffer
      = specMerge demoParse
          (runTrace demoParse initialTrace
            [.replaceHist [⟨1, 1, some "10"⟩], .appendLive ⟨2, 2, some "25"⟩]).dummyBuffer
          (runTrace demoParse initialTrace
            [.replaceHist [⟨1, 1, some "10"⟩], .appendLive ⟨2, 2, some "25"⟩]).realtimeBuffer :=
  c1_merge_invariant_amended.1 demoParse
    [.replaceHist [⟨1, 1, some "10"⟩], .appendLive ⟨2, 2, some "25"⟩] (by decide)

/-- C4 (counterexample): with an unparseable timestamp in play the live
buffer is not kept ascending by parsed timestamp: appending the
unparseable-timestamp point first and a `t=5` point second leaves the
unparseable point (whose parsed key is `NaN`, which the spec's sort
convention calls the minimum) at the *end* of L, behind `t=5`. -/
theorem c4_sorted_counterexample :
    ((runTrace demoParse initialTrace
        [.appendLive ⟨1, 1, some "bad"⟩, .appendLive ⟨2, 2, some "5"⟩]).realtimeBuffer
      = [⟨2, 2, some "5"⟩, ⟨1, 1, some "bad"⟩]) ∧
    (jsle (pointKey demoParse (⟨2, 2, some "5"⟩ : TracePoint))
        (pointKey demoParse (⟨1, 1, some "bad"⟩ : TracePoint)) = false) ∧
    (specKeyLe demoParse ⟨2, 2, some "5"⟩ ⟨1, 1, some "bad"⟩ = false) ∧
    ¬ List.Pairwise
        (fun a b => specKeyLe demoParse a b = true)
        (runTrace demoParse initialTrace
          [.appendLive ⟨1, 1, some "bad"⟩, .appendLive ⟨2, 2, some "5"⟩]).realtimeBuffer := by
  refine ⟨by decide, by decide, by decide, ?_⟩
  intro hpw
  have heq : (runTrace demoParse initialTrace
      [.appendLive ⟨1, 1, some "bad"⟩, .appendLive ⟨2, 2, some "5"⟩]).realtimeBuffer
      = [⟨2, 2, some "5"⟩, ⟨1, 1, some "bad"⟩] := by decide
  rw [heq] at hpw
  have := (List.pairwise_cons.mp hpw).1 ⟨1, 1, some "bad"⟩ (by simp)
  exact absurd this (by decide)

/-- The live stream as an operation sequence. -/
def appendOps (ps : List TracePoint) : List TraceOp := ps.map TraceOp.appendLive

/-- A stream of finite-key points yields a finite-key operation list. -/
theorem appendOps_all_finite (parse : String → JSTime) (ps : List TracePoint)
    (h : ps.all (finiteKeyB parse) = true) :
    (appendOps ps).all (opFiniteB parse) = true := by
  induction ps with
  | nil => rfl
  | cons p rest ih =>
    simp only [appendOps, List.map_cons, List.all_cons, Bool.and_eq_true] at h ⊢
    exact ⟨h.1, ih h.2⟩

/-- C4 (amended): for every sequence of `appendLive` calls whose points all
carry timestamps that parse to finite values (missing timestamps parse to
the epoch 0 and qualify), L is sorted ascending by parsed timestamp after
each call, and one insertion into a well-formed buffer preserves the sort
invariant; points with unparseable timestamps (`NaN` keys) break the
invariant instead of sorting as a minimum. -/
theorem c4_sorted_amended (parse : String → JSTime) (ps : List TracePoint)
    (h : ps.all (finiteKeyB parse) = true) :
    List.Pairwise (fun a b => jsle (pointKey parse a) (pointKey parse b) = true)
      (runTrace parse initialTrace (appendOps ps)).realtimeBuffer ∧
    (∀ (s : TraceState) (p : TracePoint), goodBuffer parse s.realtimeBuffer →
      finiteKeyB parse p = true →
      List.Pairwise (fun a b => jsle (pointKey parse a) (pointKey parse b) = true)
        (addToRealtime parse s p).realtimeBuffer) := by
  constructor
  · have hfin : (appendOps ps).all (opFiniteB parse) = true :=
      appendOps_all_finite parse ps h
    exact (runTrace_good parse (appendOps ps) initialTrace (goodBuffer_nil parse)
      (goodBuffer_nil parse) hfin).2.1
  · intro s p hg hp
    exact (addToRealtime_good parse s p hg hp).1

/-- C4 (witness): the amended sortedness applied to a concrete out-of-order
finite-timestamp stream. -/
theorem c4_sorted_witness :
    List.Pairwise
      (fun a b => jsle (pointKey demoParse a) (pointKey demoParse b) = true)
      (runTrace demoParse initialTrace
        (appendOps [⟨1, 1, some "15"⟩, ⟨2, 2, some "5"⟩, ⟨3, 3, none⟩])).realtimeBuffer :=
  (c4_sorted_amended demoParse [⟨1, 1, some "15"⟩, ⟨2, 2, some "5"⟩, ⟨3, 3, none⟩]
    (by decide)).1

/-- C5: `appendLive` is idempotent up to coordinate normalization — a
second call with a point whose normalized latitude, normalized longitude
and timestamp-or-empty agree with the first point's is a complete no-op on
the service state (live buffer, identity index and merged buffer alike). -/
theorem c5_append_idempotent (parse : String → JSTime) (s : TraceState)
    (p q : TracePoint)
    (hlat : normalizeCoord p.Latitude = normalizeCoord q.Latitude)
    (hlng : normalizeCoord p.Longitude = normalizeCoord q.Longitude)
    (hts : p.Timestamp.getD "" = q.Timestamp.getD "") :
    addToRealtime parse (addToRealtime parse s p) q = addToRealtime parse s p := by
  have hhash : hashPoint (normalizePoint q) = hashPoint (normalizePoint p) := by
    simp only [hashPoint, normalizePoint, fixed6]
    rw [← hlat, ← hlng, ← hts]
  by_cases hm : hashPoint (normalizePoint p) ∈ s.realtimeHashSet
  · rw [addToRealtime_mem parse s p hm]
    exact addToRealtime_mem parse s q (by rw [hhash]; exact hm)
  · rw [addToRealtime_not_mem parse s p hm]
    exact addToRealtime_mem parse _ q
      (by rw [hhash]; exact List.mem_cons_self _ _)

/-- C5 (witness): a second live point differing from the first only by
`10⁻⁹` in latitude (absorbed by 6-decimal normalization) is dropped. -/
theorem c5_append_idempotent_witness :
    addToRealtime demoParse
        (addToRealtime demoParse initialTrace ⟨1, 1, some "5"⟩)
        ⟨mkRat 1000000001 1000000000, 1, some "5"⟩
      = addToRealtime demoParse initialTrace ⟨1, 1, some "5"⟩ :=
  c5_append_idempotent demoParse initialTrace ⟨1, 1, some "5"⟩
    ⟨mkRat 1000000001 1000000000, 1, some "5"⟩ (by decide) (by decide) (by decide)

/-- C6 (counterexample): `replaceHistorical` with an empty second batch (a
point set trivially sharing no identity key with the first) clears H but
leaves the merged buffer stale, so the first batch's point still appears in
`current()` even though it is in neither H nor L. -/
theorem c6_replace_counterexample :
    ((runTrace demoParse initialTrace
        [.replaceHist [⟨1, 1, some "10"⟩], .replaceHist []]).dummyBuffer = []) ∧
    ((runTrace demoParse initialTrace
        [.replaceHist [⟨1, 1, some "10"⟩], .replaceHist []]).realtimeBuffer = []) ∧
    ((⟨1, 1, some "10"⟩ : TracePoint) ∈ (runTrace demoParse initialTrace
        [.replaceHist [⟨1, 1, some "10"⟩], .replaceHist []]).finalBuffer) := by
  decide

/-- C6 (amended): for a non-empty second batch sharing no identity key with
the first, `replaceHistorical` is destructive — after the second call H is
exactly the buffer the second batch alone would build from a fresh service
(independent of the first batch and of all prior state), every H point is
the normalization of a second-batch point, and a point carrying a
first-batch identity key can appear in `current()` only via the live
buffer. -/
theorem c6_replace_destructive (parse : String → JSTime) (s : TraceState)
    (b1 b2 : List TracePoint) (h2 : b2 ≠ [])
    (hdisj : ∀ q1 ∈ b1, ∀ q2 ∈ b2,
      hashPoint (normalizePoint q1) ≠ hashPoint (normalizePoint q2)) :
    ((runTrace parse s [.replaceHist b1, .replaceHist b2]).dummyBuffer
      = (replaceHistorical parse initialTrace b2).dummyBuffer) ∧
    (∀ p ∈ (runTrace parse s [.replaceHist b1, .replaceHist b2]).dummyBuffer,
      ∃ q ∈ b2, p = normalizePoint q) ∧
    (∀ p ∈ (runTrace parse s [.replaceHist b1, .replaceHist b2]).finalBuffer,
      hashPoint p ∈ b1.map (fun q => hashPoint (normalizePoint q)) →
      p ∈ (runTrace parse s [.replaceHist b1, .replaceHist b2]).realtimeBuffer) := by
  have hrun : runTrace parse s [.replaceHist b1, .replaceHist b2]
      = replaceHistorical parse (replaceHistorical parse s b1) b2 := rfl
  rw [hrun]
  refine ⟨(foldl_addToDummy_canonical parse b2
    { replaceHistorical parse s b1 with dummyBuffer := [], dummyHashSet := [] }
    { initialTrace with dummyBuffer := [], dummyHashSet := [] } rfl rfl).1, ?_, ?_⟩
  · intro p hp
    rcases foldl_addToDummy_mem parse b2 _ p hp with h1 | h1
    · simp at h1
    · exact h1
  · intro p hp hkey
    have hinv : traceInv parse
        (replaceHistorical parse (replaceHistorical parse s b1) b2) :=
      replaceHistorical_traceInv parse _ b2 h2
    rw [hinv] at hp
    rcases mem_rebuildFinalBuffer parse _ _ p hp with h1 | h1
    · rcases foldl_addToDummy_mem parse b2 _ p h1 with h3 | h3
      · simp at h3
      · obtain ⟨q2, hq2, rfl⟩ := h3
        obtain ⟨q1, hq1, heq⟩ := List.mem_map.mp hkey
        exact absurd heq (hdisj q1 hq1 q2 hq2)
    · exact h1

/-- C6 (witness): the destructive replacement applied to two concrete
disjoint single-point batches. -/
theorem c6_replace_destructive_witness :
    ((runTrace demoParse initialTrace
        [.replaceHist [⟨1, 1, some "10"⟩], .replaceHist [⟨2, 2, some "20"⟩]]).dummyBuffer
      = (replaceHistorical demoParse initialTrace [⟨2, 2, some "20"⟩]).dummyBuffer) ∧
    (∀ p ∈ (runTrace demoParse initialTrace
        [.replaceHist [⟨1, 1, some "10"⟩], .replaceHist [⟨2, 2, some "20"⟩]]).dummyBuffer,
      ∃ q ∈ [(⟨2, 2, some "20"⟩ : TracePoint)], p = normalizePoint q) ∧
    (∀ p ∈ (runTrace demoParse initialTrace
        [.replaceHist [⟨1, 1, some "10"⟩], .replaceHist [⟨2, 2, some "20"⟩]]).finalBuffer,
      hashPoint p ∈ [(⟨1, 1, some "10"⟩ : TracePoint)].map
        (fun q => hashPoint (normalizePoint q)) →
      p ∈ (runTrace demoParse initialTrace
        [.replaceHist [⟨1, 1, some "10"⟩], .replaceHist [⟨2, 2, some "20"⟩]]).realtimeBuffer) :=
  c6_replace_destructive demoParse initialTrace
    [⟨1, 1, some "10"⟩] [⟨2, 2, some "20"⟩] (by decide) (by decide)

/-- C9 (counterexample): a missing timestamp does not parse to the minimum
sort value — it parses to the epoch `fin 0`.  With H ending at a pre-1970
timestamp (`t_cut = fin (-5)`), the missing-timestamp live point *is*
admitted into the merged buffer (0 > −5) although the claim says it is
excluded whenever H is non-empty and `t_cut` is not the minimum. -/
theorem c9_missing_timestamp_counterexample :
    ((runTrace demoParse initialTrace
        [.replaceHist [⟨1, 1, some "-5"⟩], .appendLive ⟨2, 2, none⟩]).dummyBuffer ≠ []) ∧
    (pointKey demoParse (⟨2, 2, (none : Option String)⟩ : TracePoint) = .fin 0) ∧
    (pointKey demoParse (⟨1, 1, some "-5"⟩ : TracePoint) = .fin (-5)) ∧
    ((⟨2, 2, (none : Option String)⟩ : TracePoint) ∈ (runTrace demoParse initialTrace
        [.replaceHist [⟨1, 1, some "-5"⟩], .appendLive ⟨2, 2, none⟩]).finalBuffer) := by
  decide

/-- C9 (amended): a missing or empty timestamp parses to the epoch
(`fin 0`) and an unparseable one to `NaN`.  When H is non-empty, an
`NaN`-keyed point can enter the merged buffer only via H itself (the
cutover filter always rejects it), and an epoch-keyed point is likewise
rejected whenever the cutover timestamp is not strictly below 0; moreover a
fresh epoch-keyed point is spliced at the very front of a live buffer none
of whose keys is below the epoch. -/
theorem c9_missing_timestamp_amended (parse : String → JSTime)
    (A Ball : List TracePoint) (p : TracePoint) (hA : A ≠ []) :
    (pointKey parse p = .nan → p ∈ rebuildFinalBuffer parse A Ball → p ∈ A) ∧
    (pointKey parse p = .fin 0 →
      jslt (pointKey parse (A.getLast hA)) (.fin 0) = false →
      p ∈ rebuildFinalBuffer parse A Ball → p ∈ A) ∧
    (∀ buf : List TracePoint,
      (∀ a ∈ buf, jslt (pointKey parse a) (.fin 0) = false) →
      pointKey parse p = .fin 0 → insertSorted parse buf p = p :: buf) := by
  have hlen : ¬ A.length = 0 := by
    intro h
    exact hA (List.length_eq_zero.mp h)
  have hcut : pointKey parse (A.getLast?.getD defaultPoint)
      = pointKey parse (A.getLast hA) := by
    rw [List.getLast?_eq_getLast A hA]
    rfl
  refine ⟨?_, ?_, ?_⟩
  · intro hk hmem
    rcases mem_rebuild_filtered parse A Ball p hlen hmem with h1 | ⟨_, h1⟩
    · exact h1
    · rw [jsgt, hk, jslt_nan_right] at h1
      exact absurd h1 (by simp)
  · intro hk hc hmem
    rcases mem_rebuild_filtered parse A Ball p hlen hmem with h1 | ⟨_, h1⟩
    · exact h1
    · rw [jsgt, hk, hcut, hc] at h1
      exact absurd h1 (by simp)
  · intro buf hbuf hk
    refine insertSorted_front parse buf p ?_
    intro a ha
    have : parseTimestamp parse p.Timestamp = .fin 0 := hk
    rw [this]
    exact hbuf a ha

/-- C9 (witness): front insertion of a missing-timestamp point into a
concrete one-point buffer with a positive timestamp. -/
theorem c9_missing_timestamp_witness :
    insertSorted demoParse [⟨1, 1, some "10"⟩] ⟨2, 2, none⟩
      = ⟨2, 2, none⟩ :: [⟨1, 1, some "10"⟩] :=
  (c9_missing_timestamp_amended demoParse [⟨1, 1, some "10"⟩] []
    ⟨2, 2, none⟩ (by decide)).2.2 [⟨1, 1, some "10"⟩] (by decide) (by decide)
